import Mathlib

/-!
Shallow embedding of the request/response transformation core of
`hyper-reverse-proxy` (`src/lib.rs`), together with proofs about the
header-hygiene, upgrade-detection, forwarding-URL and forwarding-chain
logic.

Rust `&str` values are modelled as `List Char` (`Str`); the single-character
`split`, `trim`, `ends_with` and ASCII case-insensitive comparisons of the
source are mirrored on that type.  `hyper::HeaderMap` is modelled as an
ordered list of name/value pairs with case-insensitive name comparison,
where `remove` drops every entry of the name (as `HeaderMap::remove` does)
and `insert` replaces the first entry of the name and drops the other
entries (as `HeaderMap::insert` does).
-/

namespace HyperReverseProxy

/-- Rust string slices, modelled as lists of characters. -/
abbrev Str := List Char

/-- Embed a Lean string literal as a `Str`. -/
def str (s : String) : Str := s.toList

/-- Rust `char::to_ascii_lowercase`, character by character
    (`Char.toLower` only lowers ASCII letters, as Rust does). -/
def toLowerStr (s : Str) : Str := s.map Char.toLower

/-- Case-insensitive header-name comparison: `hyper::HeaderName` stores
    names ASCII-lowercased and `PartialEq<&str>` compares ignoring ASCII
    case. -/
def nameMatches (a b : Str) : Bool := toLowerStr a == toLowerStr b

/-- Rust `str::split(sep)` for a single-character pattern: always returns at
    least one piece, keeps empty pieces, and `"".split(sep)` is `[""]`. -/
def splitChar (sep : Char) (s : Str) : List Str :=
  match s with
  | [] => [[]]
  | c :: rest =>
    match splitChar sep rest with
    | [] => [[]]
    | t :: ts => if c = sep then [] :: t :: ts else (c :: t) :: ts

/-- Rust `str::trim` (whitespace at both ends removed). -/
def trimChars (s : Str) : Str :=
  ((s.dropWhile Char.isWhitespace).reverse.dropWhile Char.isWhitespace).reverse

/-- Rust `str::ends_with(c)` for a single-character pattern. -/
def endsWithChar (c : Char) (s : Str) : Bool := s.getLast? == some c

/-- `hyper::HeaderMap`, modelled as an insertion-ordered list of
    name/value pairs. -/
abbrev HeaderMap := List (Str × Str)

/-- `HeaderMap::get`: first value whose name matches case-insensitively. -/
def getHeader (headers : HeaderMap) (name : Str) : Option Str :=
  (headers.find? (fun p => nameMatches p.1 name)).map Prod.snd

/-- `HeaderMap::remove`: drops every entry whose name matches
    case-insensitively; the other entries keep name, value and order. -/
def removeHeader (headers : HeaderMap) (name : Str) : HeaderMap :=
  headers.filter (fun p => !(nameMatches p.1 name))

/-- `HeaderMap::insert`: replaces the first entry of the name (dropping any
    later entries of the same name), or appends a new entry at the end. -/
def insertHeader : HeaderMap → Str → Str → HeaderMap
  | [], name, value => [(name, value)]
  | p :: rest, name, value =>
    if nameMatches p.1 name then (name, value) :: removeHeader rest name
    else p :: insertHeader rest name value

/-- `HOP_HEADERS` of `src/lib.rs` (lines 130-140), in source order. -/
def HOP_HEADERS : List Str :=
  [str "connection", str "te", str "trailer", str "keep-alive",
   str "proxy-connection", str "proxy-authenticate", str "proxy-authorization",
   str "transfer-encoding", str "upgrade"]

/-- `remove_hop_headers` (lines 177-183): removes each of `HOP_HEADERS`. -/
def remove_hop_headers (headers : HeaderMap) : HeaderMap :=
  HOP_HEADERS.foldl removeHeader headers

/-- The membership test of `get_upgrade_type` (lines 187-196): the
    `connection` value split on `','`, each token trimmed and compared
    case-insensitively against `"upgrade"`. -/
def hasUpgradeToken (value : Str) : Bool :=
  (splitChar ',' value).any (fun e => toLowerStr (trimChars e) == str "upgrade")

/-- `get_upgrade_type` (lines 185-209), on header values that are valid
    text (`to_str` succeeds; the panicking case is modelled separately on
    `ByteHeaderMap` below). -/
def get_upgrade_type (headers : HeaderMap) : Option Str :=
  match getHeader headers (str "connection") with
  | some value =>
    if hasUpgradeToken value then getHeader headers (str "upgrade")
    else none
  | none => none

/-- `remove_connection_headers` (lines 211-223): if a `connection` header
    is present, removes every header named by a nonempty trimmed token of
    its comma-separated value. -/
def remove_connection_headers (headers : HeaderMap) : HeaderMap :=
  match getHeader headers (str "connection") with
  | some value =>
    (splitChar ',' value).foldl
      (fun hs name =>
        if !(trimChars name).isEmpty then removeHeader hs (trimChars name) else hs)
      headers
  | none => headers

/-- The header part of `create_proxied_response` (lines 225-232), also run
    on requests at lines 341-342: `remove_hop_headers` first, then
    `remove_connection_headers`. -/
def hygiene (headers : HeaderMap) : HeaderMap :=
  remove_connection_headers (remove_hop_headers headers)

/-- `hyper::Uri`, reduced to the two components the source reads
    (`uri().path()` and `uri().query()`). -/
structure Uri where
  path : Str
  query : Option Str
deriving DecidableEq

/-- `hyper::Request<B>`: method, URI, headers, body, and whether an
    `OnUpgrade` extension is attached. -/
structure Request (B : Type) where
  method : Str
  uri : Uri
  headers : HeaderMap
  hasUpgrade : Bool
  body : B
deriving DecidableEq

/-- `hyper::Response<B>`: status, headers, body, and whether an
    `OnUpgrade` extension is attached. -/
structure Response (B : Type) where
  status : Nat
  headers : HeaderMap
  hasUpgrade : Bool
  body : B
deriving DecidableEq

/-- `create_proxied_response` (lines 225-232). -/
def create_proxied_response {B : Type} (response : Response B) : Response B :=
  { response with headers := hygiene response.headers }

/-- The key of a `key=value` query pair: `el.split('=')` and `parts[0]`
    (lines 277-278, 284-285). -/
def queryPairKey (el : Str) : Str := (splitChar '=' el).getD 0 []

/-- The value of a `key=value` query pair: `parts[1]` when `parts.len() > 1`
    else `""` (line 278). -/
def queryPairVal (el : Str) : Str :=
  let parts := splitChar '=' el
  if parts.length > 1 then parts.getD 1 [] else []

/-- The query-merge branch of `forward_uri` (lines 274-304): each request
    `key=value` pair whose key does not occur among the forward-URL query's
    keys is appended as `'&' + key + '=' + value`, and one trailing `'&'`
    is stripped. -/
def mergeQuery (forward_url_query request_query url1 : Str) : Str :=
  let request_query_items :=
    (splitChar '&' request_query).map (fun el => (queryPairKey el, queryPairVal el))
  let forward_query_items := (splitChar '&' forward_url_query).map queryPairKey
  let url2 := request_query_items.foldl
    (fun u kv =>
      if !(forward_query_items.any (fun e => e == kv.1)) then
        u ++ ['&'] ++ kv.1 ++ ['='] ++ kv.2
      else u)
    url1
  if endsWithChar '&' url2 then url2.dropLast else url2

/-- The body of `forward_uri` after the `'?'` split of the forward URL
    (lines 239-309), on the two pieces `split_url[0]` and `split_url[1]`. -/
def forward_uri_from_parts {B : Type} (base_url0 forward_url_query : Str)
    (req : Request B) : Str :=
  let path2 := req.uri.path
  let base_url := if endsWithChar '/' base_url0 then base_url0.dropLast else base_url0
  let url0 := base_url ++ path2
  if !forward_url_query.isEmpty ||
      ((req.uri.query.map (fun e => !e.isEmpty)).getD false) then
    let url1 := url0 ++ ['?'] ++ forward_url_query
    if forward_url_query.isEmpty then
      url1 ++ req.uri.query.getD []
    else
      mergeQuery forward_url_query (req.uri.query.getD []) url1
  else url0

/-- `forward_uri` (lines 234-310): splits the forward URL on `'?'`
    (`split_url.get(0).unwrap_or("")`, `split_url.get(1).unwrap_or("")`)
    and hands the pieces to the body above.  The final
    `url.parse().unwrap()` parses into `String` and is the identity. -/
def forward_uri {B : Type} (forward_url : Str) (req : Request B) : Str :=
  let split_url := splitChar '?' forward_url
  forward_uri_from_parts (split_url.getD 0 []) (split_url.getD 1 []) req

/-- `ProxyError` (lines 145-151); the payloads irrelevant to the claims
    (`InvalidUri`, `hyper::Error`) are dropped. -/
inductive ProxyError where
  | InvalidUri : ProxyError
  | HyperError : ProxyError
  | ForwardHeaderError : ProxyError
  | UpgradeError : Str → ProxyError
deriving DecidableEq

/-- The `contains_te_trailers_value` test of `create_proxied_request`
    (lines 320-330): the `te` value split on `','`, each token trimmed and
    compared case-insensitively against `"trailers"`. -/
def contains_te_trailers (headers : HeaderMap) : Bool :=
  match getHeader headers (str "te") with
  | some value =>
    (splitChar ',' value).any (fun e => toLowerStr (trimChars e) == str "trailers")
  | none => false

/-- The `x-forwarded-for` entry match of `create_proxied_request`
    (lines 364-381).  In the occupied branch the source builds the merged
    `"<existing>, <clientIp>"` string (`addr`) but never writes it back, so
    the headers are returned unchanged; `_addr` mirrors that dead
    computation.  (`client_ip.to_string()` is always a valid header value,
    so the vacant branch's `parse()?` never fails.) -/
def append_forwarded_for (headers : HeaderMap) (client_ip : Str) : HeaderMap :=
  match getHeader headers (str "x-forwarded-for") with
  | none => insertHeader headers (str "x-forwarded-for") client_ip
  | some value =>
    let _addr := value ++ str ", " ++ client_ip
    headers

/-- The header pipeline of `create_proxied_request` (lines 320-330 and
    337-381): the `te: trailers` test on the original headers, `host`
    removal, hop-by-hop and connection-listed removal, `te`/`upgrade`/
    `connection` re-insertion, forwarding-chain annotation. -/
def proxied_headers (headers : HeaderMap) (upgrade_type : Option Str)
    (client_ip : Str) : HeaderMap :=
  let te_trailers := contains_te_trailers headers
  let headers := removeHeader headers (str "host")
  let headers := hygiene headers
  let headers :=
    if te_trailers then insertHeader headers (str "te") (str "trailers")
    else headers
  let headers :=
    match upgrade_type with
    | some value =>
      insertHeader (insertHeader headers (str "upgrade") value)
        (str "connection") (str "UPGRADE")
    | none => headers
  append_forwarded_for headers client_ip

/-- `create_proxied_request` (lines 312-386).  `parseUri` stands for the
    external `hyper::Uri` parser applied to the built string at line 332;
    its failure is `ProxyError::InvalidUri` via `From<InvalidUri>`.  Only
    the URI and the headers of the request are replaced. -/
def create_proxied_request {B : Type} (parseUri : Str → Option Uri)
    (client_ip : Str) (forward_url : Str) (request : Request B)
    (upgrade_type : Option Str) : Except ProxyError (Request B) :=
  match parseUri (forward_uri forward_url request) with
  | none => .error .InvalidUri
  | some uri =>
    .ok { request with
          uri := uri,
          headers := proxied_headers request.headers upgrade_type client_ip }

/-- Debug formatting of an `Option<String>`, as `format!("{:?}", _)`
    renders it in the mismatch message of `call` (lines 441-444). -/
def optionDebug : Option Str → Str
  | some s => str "Some(\"" ++ s ++ str "\")"
  | none => str "None"

/-- The upgrade-type mismatch message of `call` (lines 441-444). -/
def mismatch_message (response_upgrade_type request_upgrade_type : Option Str) : Str :=
  str "backend tried to switch to protocol " ++ optionDebug response_upgrade_type ++
  str " when " ++ optionDebug request_upgrade_type ++ str " was requested"

/-- The observable outcome of `call`: a plain (hygiened) response, a 101
    response with the background relay spawned, a process panic (an
    `expect` failing), or an `Err(ProxyError)`. -/
inductive CallOutcome (B : Type) where
  | ok : Response B → CallOutcome B
  | upgraded : Response B → CallOutcome B
  | crashed : Str → CallOutcome B
  | error : ProxyError → CallOutcome B
deriving DecidableEq

/-- `call` (lines 388-452).  The transport collaborator
    (`client.request(..).await`) is a function argument; awaiting the two
    `OnUpgrade` handles and the spawned `copy_bidirectional` relay are
    external I/O, summarised by the `upgraded` outcome. -/
def call {B : Type} (parseUri : Str → Option Uri) (client_ip : Str)
    (forward_url : Str) (request : Request B)
    (transport : Request B → Except Unit (Response B)) : CallOutcome B :=
  let request_upgrade_type := get_upgrade_type request.headers
  let request_upgraded := request.hasUpgrade
  let request := { request with hasUpgrade := false }
  match create_proxied_request parseUri client_ip forward_url request
      request_upgrade_type with
  | .error e => .error e
  | .ok proxied_request =>
    match transport proxied_request with
    | .error _ => .error .HyperError
    | .ok response =>
      if response.status = 101 then
        let response_upgrade_type := get_upgrade_type response.headers
        if request_upgrade_type = response_upgrade_type then
          if request_upgraded then
            if response.hasUpgrade then .upgraded { response with hasUpgrade := false }
            else .crashed (str "response does not have an upgrade extension")
          else
            .error (.UpgradeError (str "request does not have an upgrade extension"))
        else
          .error (.UpgradeError
            (mismatch_message response_upgrade_type request_upgrade_type))
      else .ok (create_proxied_response response)

/-!  Byte-level view of header values, for the claims about values that are
not valid text.  A `hyper::HeaderValue` may hold opaque bytes on which
`to_str()` fails; such a value is modelled as `none`, a valid-text value as
`some s`. -/

/-- A header map whose values may fail `HeaderValue::to_str`. -/
abbrev ByteHeaderMap := List (Str × Option Str)

/-- Outcome of code that may `unwrap()` a failed `to_str`. -/
inductive PanicOr (α : Type) where
  | crashed : PanicOr α
  | ok : α → PanicOr α
deriving DecidableEq

/-- `HeaderValue::to_str().unwrap()`: a process panic when the value is not
    valid text. -/
def to_str_unwrap : Option Str → PanicOr Str
  | some s => .ok s
  | none => .crashed

/-- `HeaderMap::get` on the byte-level map. -/
def getHeaderB (headers : ByteHeaderMap) (name : Str) : Option (Option Str) :=
  (headers.find? (fun p => nameMatches p.1 name)).map Prod.snd

/-- `get_upgrade_type` (lines 185-209) at byte level: every read of a
    header value goes through `to_str().unwrap()` (lines 191-192, 201,
    204), so a `connection` (or reachable `upgrade`) value that is not
    valid text panics instead of producing a `ProxyError`. -/
def get_upgrade_type_bytes (headers : ByteHeaderMap) : PanicOr (Option Str) :=
  match getHeaderB headers (str "connection") with
  | some value =>
    match to_str_unwrap value with
    | .crashed => .crashed
    | .ok s =>
      if hasUpgradeToken s then
        match getHeaderB headers (str "upgrade") with
        | some uv =>
          match to_str_unwrap uv with
          | .crashed => .crashed
          | .ok us => .ok (some us)
        | none => .ok none
      else .ok none
  | none => .ok none

/-!  ## Header-hygiene lemmas -/

lemma foldl_removeHeader_eq_filter (names : List Str) (headers : HeaderMap) :
    names.foldl removeHeader headers =
      headers.filter (fun p => !(names.any (fun n => nameMatches p.1 n))) := by
  induction names generalizing headers with
  | nil => simp
  | cons n ns ih =>
    simp only [List.foldl_cons]
    rw [ih, removeHeader, List.filter_filter]
    exact List.filter_congr (fun p _ => by
      simp [List.any_cons, Bool.not_or, Bool.and_comm])

lemma remove_hop_headers_eq_filter (headers : HeaderMap) :
    remove_hop_headers headers =
      headers.filter (fun p => !(HOP_HEADERS.any (fun n => nameMatches p.1 n))) :=
  foldl_removeHeader_eq_filter HOP_HEADERS headers

lemma getHeader_remove_hop_connection (headers : HeaderMap) :
    getHeader (remove_hop_headers headers) (str "connection") = none := by
  rw [remove_hop_headers_eq_filter]
  unfold getHeader
  rw [Option.map_eq_none', List.find?_eq_none]
  intro p hp hmatch
  have hkeep := (List.mem_filter.mp hp).2
  have hall := List.any_eq_false.mp (by simpa using hkeep)
  exact hall (str "connection") (by simp [HOP_HEADERS]) hmatch

lemma remove_connection_headers_of_no_connection (headers : HeaderMap)
    (h : getHeader headers (str "connection") = none) :
    remove_connection_headers headers = headers := by
  unfold remove_connection_headers
  rw [h]

lemma hygiene_eq_remove_hop (headers : HeaderMap) :
    hygiene headers = remove_hop_headers headers :=
  remove_connection_headers_of_no_connection _ (getHeader_remove_hop_connection headers)

lemma remove_hop_headers_idem (headers : HeaderMap) :
    remove_hop_headers (remove_hop_headers headers) = remove_hop_headers headers := by
  rw [remove_hop_headers_eq_filter headers, remove_hop_headers_eq_filter]
  exact List.filter_eq_self.mpr (fun p hp => (List.mem_filter.mp hp).2)

/-- The fixed hop-by-hop name set exactly as claim C1 lists it. -/
def claimHopNames : List Str :=
  [str "connection", str "keep-alive", str "proxy-connection",
   str "proxy-authenticate", str "proxy-authorization", str "te", str "trailer",
   str "transfer-encoding", str "upgrade"]

lemma bool_or_perm9 : ∀ a b c d e f g h i : Bool,
    (a || (b || (c || (d || (e || (f || (g || (h || i)))))))) =
    (a || (d || (e || (f || (g || (b || (c || (h || i)))))))) := by
  decide

lemma hop_names_agree (s : Str) :
    HOP_HEADERS.any (fun n => nameMatches s n) =
      claimHopNames.any (fun n => nameMatches s n) := by
  simp only [HOP_HEADERS, claimHopNames, List.any_cons, List.any_nil, Bool.or_false]
  exact bool_or_perm9 _ _ _ _ _ _ _ _ _

/-- Claim C1: `remove_hop_headers` deletes exactly the headers whose name
    case-insensitively matches the fixed set {connection, keep-alive,
    proxy-connection, proxy-authenticate, proxy-authorization, te, trailer,
    transfer-encoding, upgrade}; absent names are not an error, and every
    other header keeps its name, value and relative order. -/
theorem remove_hop_headers_exact (headers : HeaderMap) :
    remove_hop_headers headers =
      headers.filter (fun p => !(claimHopNames.any (fun n => nameMatches p.1 n))) := by
  rw [remove_hop_headers_eq_filter]
  exact List.filter_congr (fun p _ => by rw [hop_names_agree])

/-- Claim C2, counterexample: on a header set with `connection: Foo, Bar`
    and headers `foo` and `bar`, the hygiene step as the code runs it does
    NOT remove `foo` and `bar` — both survive with their values. -/
theorem hygiene_keeps_connection_listed :
    getHeader
      (hygiene [(str "connection", str "Foo, Bar"), (str "foo", str "x"),
                (str "bar", str "y")]) (str "foo") = some (str "x") ∧
    getHeader
      (hygiene [(str "connection", str "Foo, Bar"), (str "foo", str "x"),
                (str "bar", str "y")]) (str "bar") = some (str "y") := by
  decide

/-- Claim C2, amended: the hygiene step removes only the fixed hop-by-hop
    set — on the `connection: Foo, Bar` scenario only `connection` is
    deleted and `foo`, `bar` remain — because `remove_hop_headers` deletes
    the `connection` header before `remove_connection_headers` reads it,
    making the connection-listed removal a no-op on every header set. -/
theorem hygiene_is_fixed_set_removal (headers : HeaderMap) :
    hygiene headers = remove_hop_headers headers ∧
    hygiene [(str "connection", str "Foo, Bar"), (str "foo", str "x"),
             (str "bar", str "y")] =
      [(str "foo", str "x"), (str "bar", str "y")] :=
  ⟨hygiene_eq_remove_hop headers, by decide⟩

/-- Claim C9: the hygiene step (fixed-set removal followed by
    connection-listed removal, as run on responses) is idempotent. -/
theorem hygiene_idempotent (headers : HeaderMap) :
    hygiene (hygiene headers) = hygiene headers := by
  rw [hygiene_eq_remove_hop, hygiene_eq_remove_hop, remove_hop_headers_idem]

/-!  ## Forwarding-chain lemmas -/

lemma getHeader_insertHeader_self (headers : HeaderMap) (name value : Str)
    (h : getHeader headers name = none) :
    getHeader (insertHeader headers name value) name = some value := by
  induction headers with
  | nil => simp [insertHeader, getHeader, nameMatches]
  | cons p rest ih =>
    by_cases hp : nameMatches p.1 name
    · exact absurd h (by simp [getHeader, List.find?_cons_of_pos, hp])
    · have hrest : getHeader rest name = none := by
        unfold getHeader at h ⊢
        rwa [List.find?_cons_of_neg _ (by simpa using hp)] at h
      unfold insertHeader getHeader
      rw [if_neg hp, List.find?_cons_of_neg _ (by simpa using hp)]
      exact ih hrest

/-- Claim C3, counterexample: with `x-forwarded-for: 1.2.3.4` already
    present and client IP `5.6.7.8`, the header value afterwards is still
    `1.2.3.4` — the merged chain `1.2.3.4, 5.6.7.8` is computed but never
    written back. -/
theorem append_forwarded_for_occupied_not_merged :
    getHeader
      (append_forwarded_for [(str "x-forwarded-for", str "1.2.3.4")] (str "5.6.7.8"))
      (str "x-forwarded-for") = some (str "1.2.3.4") ∧
    str "1.2.3.4" ≠ str "1.2.3.4, 5.6.7.8" := by
  decide

/-- Claim C3, amended: if the forwarding-chain header is absent,
    `append_forwarded_for` sets it to the client IP's textual form; if it
    is present, the header set is returned unchanged (the merged
    comma-space chain is computed but never committed). -/
theorem append_forwarded_for_cases (headers : HeaderMap) (client_ip : Str) :
    (getHeader headers (str "x-forwarded-for") = none →
      getHeader (append_forwarded_for headers client_ip) (str "x-forwarded-for") =
        some client_ip) ∧
    (∀ v, getHeader headers (str "x-forwarded-for") = some v →
      append_forwarded_for headers client_ip = headers) := by
  constructor
  · intro h
    unfold append_forwarded_for
    rw [h]
    exact getHeader_insertHeader_self headers _ client_ip h
  · intro v h
    unfold append_forwarded_for
    rw [h]

/-- Witness for C3's amended theorem at concrete inputs: absent header plus
    client `5.6.7.8` yields value `5.6.7.8`; an occupied header set is
    returned unchanged. -/
theorem append_forwarded_for_cases_witness :
    getHeader (append_forwarded_for [] (str "5.6.7.8")) (str "x-forwarded-for") =
      some (str "5.6.7.8") ∧
    append_forwarded_for [(str "x-forwarded-for", str "1.2.3.4")] (str "5.6.7.8") =
      [(str "x-forwarded-for", str "1.2.3.4")] :=
  ⟨(append_forwarded_for_cases [] (str "5.6.7.8")).1 (by decide),
   (append_forwarded_for_cases [(str "x-forwarded-for", str "1.2.3.4")]
      (str "5.6.7.8")).2 (str "1.2.3.4") (by decide)⟩

/-!  ## Upgrade-detection lemmas -/

lemma hasUpgradeToken_iff (c : Str) :
    hasUpgradeToken c = true ↔
      ∃ e ∈ splitChar ',' c, toLowerStr (trimChars e) = str "upgrade" := by
  simp [hasUpgradeToken, List.any_eq_true]

/-- Claim C6: `get_upgrade_type` returns the value of the `upgrade` header
    exactly when the `connection` header's comma-separated token list
    contains the token `upgrade` (each token trimmed, compared
    case-insensitively) and an `upgrade` header is present; in every other
    case it returns `none`. -/
theorem get_upgrade_type_spec (headers : HeaderMap) (v : Str) :
    get_upgrade_type headers = some v ↔
      ∃ c, getHeader headers (str "connection") = some c ∧
        (∃ e ∈ splitChar ',' c, toLowerStr (trimChars e) = str "upgrade") ∧
        getHeader headers (str "upgrade") = some v := by
  cases hc : getHeader headers (str "connection") with
  | none => simp [get_upgrade_type, hc]
  | some c =>
    by_cases ht : hasUpgradeToken c
    · simp only [get_upgrade_type, hc, ht, if_true]
      constructor
      · intro h
        exact ⟨c, rfl, (hasUpgradeToken_iff c).mp ht, h⟩
      · rintro ⟨c', hc', _, hu⟩
        exact hu
    · have htf : hasUpgradeToken c = false := by simpa using ht
      simp only [get_upgrade_type, hc, htf, Bool.false_eq_true, if_false]
      constructor
      · intro h
        exact absurd h (by simp)
      · rintro ⟨c', hc', htok, _⟩
        cases hc'
        exact absurd ((hasUpgradeToken_iff c).mpr htok) ht

/-- Witness for C6 at a concrete input: `connection: keep-alive, Upgrade`
    plus `upgrade: websocket` yields `some "websocket"`. -/
theorem get_upgrade_type_spec_witness :
    get_upgrade_type [(str "connection", str "keep-alive, Upgrade"),
                      (str "upgrade", str "websocket")] = some (str "websocket") :=
  (get_upgrade_type_spec _ _).mpr
    ⟨str "keep-alive, Upgrade", by decide,
     ⟨str " Upgrade", by decide, by decide⟩, by decide⟩

/-!  ## Forwarding-URL lemmas -/

lemma endsWithChar_append_right (c : Char) (l t : Str) (ht : t ≠ []) :
    endsWithChar c (l ++ t) = endsWithChar c t := by
  unfold endsWithChar
  rw [List.getLast?_append]
  obtain ⟨x, hx⟩ := Option.isSome_iff_exists.mp (List.getLast?_isSome.mpr ht)
  rw [hx]
  rfl

lemma splitChar_ne_nil (sep : Char) (s : Str) : splitChar sep s ≠ [] := by
  cases s with
  | nil => simp [splitChar]
  | cons c rest =>
    unfold splitChar
    cases splitChar sep rest with
    | nil => simp
    | cons t ts => by_cases h : c = sep <;> simp [h]

lemma not_mem_of_mem_splitChar (sep : Char) :
    ∀ (s piece : Str), piece ∈ splitChar sep s → sep ∉ piece := by
  intro s
  induction s with
  | nil =>
    intro piece hp
    simp [splitChar] at hp
    simp [hp]
  | cons c rest ih =>
    intro piece hp
    cases hsp : splitChar sep rest with
    | nil => exact absurd hsp (splitChar_ne_nil sep rest)
    | cons t ts =>
      simp only [splitChar, hsp] at hp
      by_cases hc : c = sep
      · rw [if_pos hc] at hp
        rcases List.mem_cons.mp hp with h1 | h2
        · simp [h1]
        · exact ih piece (by rw [hsp]; exact h2)
      · rw [if_neg hc] at hp
        rcases List.mem_cons.mp hp with h1 | h2
        · subst h1
          intro hmem
          rcases List.mem_cons.mp hmem with h3 | h4
          · exact hc h3.symm
          · exact ih t (by rw [hsp]; exact List.mem_cons_self t ts) h4
        · exact ih piece (by rw [hsp]; exact List.mem_cons_of_mem t h2)

lemma mem_of_mem_splitChar (sep : Char) :
    ∀ (s piece : Str), piece ∈ splitChar sep s → ∀ a ∈ piece, a ∈ s := by
  intro s
  induction s with
  | nil =>
    intro piece hp a ha
    simp [splitChar] at hp
    subst hp
    simp at ha
  | cons c rest ih =>
    intro piece hp a ha
    cases hsp : splitChar sep rest with
    | nil => exact absurd hsp (splitChar_ne_nil sep rest)
    | cons t ts =>
      simp only [splitChar, hsp] at hp
      by_cases hc : c = sep
      · rw [if_pos hc] at hp
        rcases List.mem_cons.mp hp with h1 | h2
        · subst h1
          simp at ha
        · exact List.mem_cons_of_mem c (ih piece (by rw [hsp]; exact h2) a ha)
      · rw [if_neg hc] at hp
        rcases List.mem_cons.mp hp with h1 | h2
        · subst h1
          rcases List.mem_cons.mp ha with h3 | h4
          · exact h3 ▸ List.mem_cons_self c rest
          · exact List.mem_cons_of_mem c
              (ih t (by rw [hsp]; exact List.mem_cons_self t ts) a h4)
        · exact List.mem_cons_of_mem c
            (ih piece (by rw [hsp]; exact List.mem_cons_of_mem t h2) a ha)

lemma queryPairVal_no_amp (el : Str) (h : '&' ∉ el) : '&' ∉ queryPairVal el := by
  simp only [queryPairVal]
  cases hsp : splitChar '=' el with
  | nil => exact absurd hsp (splitChar_ne_nil '=' el)
  | cons p0 tl =>
    cases tl with
    | nil => simp [hsp]
    | cons p1 rest =>
      rw [if_pos (by simp)]
      have hget : (p0 :: p1 :: rest).getD 1 [] = p1 := rfl
      rw [hget]
      intro hmem
      exact h (mem_of_mem_splitChar '=' el p1
        (by rw [hsp]; exact List.mem_cons_of_mem p0 (List.mem_cons_self p1 rest))
        '&' hmem)

lemma piece_not_ends_amp (k v : Str) (hv : '&' ∉ v) :
    endsWithChar '&' (['&'] ++ k ++ ['='] ++ v) = false := by
  cases v with
  | nil =>
    rw [List.append_nil, endsWithChar_append_right '&' (['&'] ++ k) ['='] (by simp)]
    rfl
  | cons c vs =>
    rw [endsWithChar_append_right '&' (['&'] ++ k ++ ['=']) (c :: vs)
      (List.cons_ne_nil c vs)]
    obtain ⟨x, hx⟩ := Option.isSome_iff_exists.mp
      (List.getLast?_isSome.mpr (List.cons_ne_nil c vs))
    have hxne : x ≠ '&' := fun hc => hv (hc ▸ List.mem_of_getLast?_eq_some hx)
    unfold endsWithChar
    rw [hx]
    simp [hxne]

lemma flatten_pieces_not_ends_amp :
    ∀ (pieces : List Str),
      (∀ p ∈ pieces, p ≠ [] ∧ endsWithChar '&' p = false) →
      pieces.flatten = [] ∨ endsWithChar '&' pieces.flatten = false := by
  intro pieces
  induction pieces with
  | nil =>
    intro _
    left
    rfl
  | cons p ps ih =>
    intro h
    right
    rw [List.flatten_cons]
    by_cases hje : ps.flatten = []
    · rw [hje, List.append_nil]
      exact (h p (List.mem_cons_self p ps)).2
    · rw [endsWithChar_append_right '&' p ps.flatten hje]
      rcases ih (fun x hx => h x (List.mem_cons_of_mem p hx)) with hj | hj
      · exact absurd hj hje
      · exact hj

lemma foldl_merge_eq_flatten (P : Str × Str → Bool) (items : List (Str × Str))
    (acc : Str) :
    items.foldl
        (fun u kv => if P kv then u ++ ['&'] ++ kv.1 ++ ['='] ++ kv.2 else u) acc =
      acc ++ ((items.filter P).map (fun kv => ['&'] ++ kv.1 ++ ['='] ++ kv.2)).flatten := by
  induction items generalizing acc with
  | nil => simp
  | cons kv rest ih =>
    simp only [List.foldl_cons, List.filter_cons]
    by_cases h : P kv = true
    · rw [if_pos h, if_pos h, ih]
      simp [List.map_cons, List.flatten_cons, List.append_assoc]
    · rw [if_neg h, if_neg h, ih]

lemma mergeQuery_eq_flatten (q rq X : Str) (hq : q ≠ [])
    (hamp : endsWithChar '&' q = false) :
    mergeQuery q rq (X ++ q) =
      (X ++ q) ++
        ((((splitChar '&' rq).map (fun el => (queryPairKey el, queryPairVal el))).filter
            (fun kv => !(((splitChar '&' q).map queryPairKey).any (fun e => e == kv.1)))).map
          (fun kv => ['&'] ++ kv.1 ++ ['='] ++ kv.2)).flatten := by
  simp only [mergeQuery]
  have heq := foldl_merge_eq_flatten
    (fun kv => !(((splitChar '&' q).map queryPairKey).any (fun e => e == kv.1)))
    ((splitChar '&' rq).map (fun el => (queryPairKey el, queryPairVal el))) (X ++ q)
  rw [heq]
  have htail : ∀ p ∈ ((((splitChar '&' rq).map
      (fun el => (queryPairKey el, queryPairVal el))).filter
        (fun kv => !(((splitChar '&' q).map queryPairKey).any (fun e => e == kv.1)))).map
      (fun kv => ['&'] ++ kv.1 ++ ['='] ++ kv.2)),
      p ≠ [] ∧ endsWithChar '&' p = false := by
    intro p hp
    obtain ⟨kv, hkv, hpe⟩ := List.mem_map.mp hp
    obtain ⟨el, hel, hkveq⟩ := List.mem_map.mp (List.mem_filter.mp hkv).1
    constructor
    · rw [← hpe]
      simp
    · rw [← hpe]
      apply piece_not_ends_amp
      have hv : kv.2 = queryPairVal el := by rw [← hkveq]
      rw [hv]
      exact queryPairVal_no_amp el (not_mem_of_mem_splitChar '&' rq el hel)
  by_cases hje : ((((splitChar '&' rq).map
      (fun el => (queryPairKey el, queryPairVal el))).filter
        (fun kv => !(((splitChar '&' q).map queryPairKey).any (fun e => e == kv.1)))).map
      (fun kv => ['&'] ++ kv.1 ++ ['='] ++ kv.2)).flatten = []
  · rw [hje, List.append_nil, endsWithChar_append_right '&' X q hq, hamp,
      if_neg (by simp)]
  · rw [endsWithChar_append_right '&' (X ++ q) _ hje]
    rcases flatten_pieces_not_ends_amp _ htail with hj | hj
    · exact absurd hj hje
    · rw [hj, if_neg (by simp)]

lemma mergeQuery_nil (q X : Str) (hq : q ≠ [])
    (hamp : endsWithChar '&' q = false) :
    mergeQuery q [] (X ++ q) =
      (X ++ q) ++
        (if ((splitChar '&' q).map queryPairKey).any (fun e => e == ([] : Str))
         then [] else ['&', '=']) := by
  simp only [mergeQuery]
  have hitems : (splitChar '&' ([] : Str)).map
      (fun el => (queryPairKey el, queryPairVal el)) = [(([] : Str), ([] : Str))] := rfl
  rw [hitems]
  simp only [List.foldl_cons, List.foldl_nil]
  by_cases hk : ((splitChar '&' q).map queryPairKey).any (fun e => e == ([] : Str)) = true
  · have h1 : (if (!((splitChar '&' q).map queryPairKey).any (fun e => e == ([] : Str))) = true
        then X ++ q ++ ['&'] ++ [] ++ ['='] ++ [] else X ++ q) = X ++ q := by
      rw [hk]
      rfl
    rw [h1, endsWithChar_append_right '&' X q hq, hamp, hk]
    simp
  · have hkf : ((splitChar '&' q).map queryPairKey).any (fun e => e == ([] : Str)) = false := by
      simpa using hk
    have h1 : (if (!((splitChar '&' q).map queryPairKey).any (fun e => e == ([] : Str))) = true
        then X ++ q ++ ['&'] ++ [] ++ ['='] ++ [] else X ++ q) =
        X ++ q ++ ['&'] ++ [] ++ ['='] ++ [] := by
      rw [hkf]
      rfl
    have h2 : X ++ q ++ ['&'] ++ [] ++ ['='] ++ [] = (X ++ q) ++ ['&', '='] := by
      simp [List.append_assoc]
    rw [h1, h2, endsWithChar_append_right '&' (X ++ q) ['&', '='] (by simp),
      show endsWithChar '&' (['&', '='] : Str) = false from rfl, hkf]
    simp

/-- Concrete request of claim C4's example: path `/p`, query `x=2&y=3`. -/
def reqC4 : Request Unit :=
  { method := [], uri := { path := str "/p", query := some (str "x=2&y=3") },
    headers := [], hasUpgrade := false, body := () }

/-- Concrete request of claim C5's example: path `/p`, no query. -/
def reqC5 : Request Unit :=
  { method := [], uri := { path := str "/p", query := none },
    headers := [], hasUpgrade := false, body := () }

/-- Claim C4, counterexample: the claimed result string `http://h/basep?x=1&y=3`
    is wrong — path concatenation keeps the `/` of the request path, so the
    code produces `http://h/base/p?x=1&y=3`. -/
theorem forward_uri_path_keeps_slash :
    forward_uri (str "http://h/base?x=1") reqC4 = str "http://h/base/p?x=1&y=3" ∧
    str "http://h/base/p?x=1&y=3" ≠ str "http://h/basep?x=1&y=3" := by
  decide

/-- Claim C4, amended: `buildForwardUri("http://h/base?x=1", "/p", "x=2&y=3")`
    equals `"http://h/base/p?x=1&y=3"` (base query's `x=1` wins over the
    request's `x=2`; request-only `y=3` is appended); and in general, for a
    base URL splitting into body `b` and non-empty query `q` not ending in
    `'&'` (otherwise the final trailing-`'&'` strip can eat into the base
    query), the result is exactly `b` (one trailing `/` dropped) + request
    path + `'?' + q` verbatim — base-query pairs keep their values over
    same-named request pairs — followed by precisely the request `key=value`
    pairs whose key does not appear among the base-query keys, in order,
    each appended as `'&' + key + '=' + value`. -/
theorem forward_uri_base_query_wins {B : Type} (fu b q : Str) (req : Request B)
    (hsplit : splitChar '?' fu = [b, q]) (hq : q ≠ [])
    (hamp : endsWithChar '&' q = false) :
    (forward_uri fu req =
      (if endsWithChar '/' b then b.dropLast else b) ++ req.uri.path ++ ['?'] ++ q ++
        ((((splitChar '&' (req.uri.query.getD [])).map
            (fun el => (queryPairKey el, queryPairVal el))).filter
          (fun kv => !(((splitChar '&' q).map queryPairKey).any (fun e => e == kv.1)))).map
            (fun kv => ['&'] ++ kv.1 ++ ['='] ++ kv.2)).flatten) ∧
    forward_uri (str "http://h/base?x=1") reqC4 = str "http://h/base/p?x=1&y=3" := by
  constructor
  · have hfu : forward_uri fu req = forward_uri_from_parts b q req := by
      unfold forward_uri
      rw [hsplit]
      rfl
    have hqe : q.isEmpty = false := List.isEmpty_eq_false.mpr hq
    rw [hfu]
    simp only [forward_uri_from_parts]
    rw [if_pos (by simp [hqe]), if_neg (by simp [hqe])]
    exact mergeQuery_eq_flatten q (req.uri.query.getD []) _ hq hamp
  · decide

/-- Witness for C4's amended theorem at the claim's concrete input. -/
theorem forward_uri_base_query_wins_witness :
    (forward_uri (str "http://h/base?x=1") reqC4 =
      (if endsWithChar '/' (str "http://h/base") then (str "http://h/base").dropLast
       else str "http://h/base") ++ reqC4.uri.path ++ ['?'] ++ str "x=1" ++
        ((((splitChar '&' (reqC4.uri.query.getD [])).map
            (fun el => (queryPairKey el, queryPairVal el))).filter
          (fun kv => !(((splitChar '&' (str "x=1")).map queryPairKey).any
            (fun e => e == kv.1)))).map
            (fun kv => ['&'] ++ kv.1 ++ ['='] ++ kv.2)).flatten) ∧
    forward_uri (str "http://h/base?x=1") reqC4 = str "http://h/base/p?x=1&y=3" :=
  forward_uri_base_query_wins (str "http://h/base?x=1") (str "http://h/base")
    (str "x=1") reqC4 (by decide) (by decide) (by decide)

/-- Claim C5, counterexample: with base query `x=1` and an absent request
    query, the code does NOT stop after the base query — it appends `&=`
    (the empty request query still contributes one empty `key=value`
    pair). -/
theorem forward_uri_appends_empty_pair :
    forward_uri (str "http://h/base?x=1") reqC5 = str "http://h/base/p?x=1&=" ∧
    str "http://h/base/p?x=1&=" ≠ str "http://h/base/p?x=1" := by
  decide

/-- Claim C5, amended: for a base URL splitting into body `b` and non-empty
    query `q` (not ending in `'&'`) and a request whose query is empty or
    absent, the result is `b` (one trailing `/` dropped) + request path +
    `'?' + q` followed by `"&="` — the empty request query contributes one
    empty `key=value` pair — except that nothing is appended when the empty
    string occurs among `q`'s keys. -/
theorem forward_uri_empty_request_query {B : Type} (fu b q : Str) (req : Request B)
    (hsplit : splitChar '?' fu = [b, q]) (hq : q ≠ [])
    (hamp : endsWithChar '&' q = false)
    (hreq : req.uri.query = none ∨ req.uri.query = some []) :
    forward_uri fu req =
      (if endsWithChar '/' b then b.dropLast else b) ++ req.uri.path ++ ['?'] ++ q ++
        (if ((splitChar '&' q).map queryPairKey).any (fun e => e == ([] : Str))
         then [] else str "&=") := by
  have hfu : forward_uri fu req = forward_uri_from_parts b q req := by
    unfold forward_uri
    rw [hsplit]
    rfl
  have hqe : q.isEmpty = false := List.isEmpty_eq_false.mpr hq
  have hquery : req.uri.query.getD [] = [] := by
    rcases hreq with h | h <;> simp [h]
  rw [hfu]
  simp only [forward_uri_from_parts]
  rw [if_pos (by simp [hqe]), if_neg (by simp [hqe]), hquery,
    show str "&=" = (['&', '='] : Str) from rfl]
  exact mergeQuery_nil q _ hq hamp

/-- Witness for C5's amended theorem at the claim's concrete input. -/
theorem forward_uri_empty_request_query_witness :
    forward_uri (str "http://h/base?x=1") reqC5 =
      (if endsWithChar '/' (str "http://h/base") then (str "http://h/base").dropLast
       else str "http://h/base") ++ reqC5.uri.path ++ ['?'] ++ str "x=1" ++
        (if ((splitChar '&' (str "x=1")).map queryPairKey).any (fun e => e == ([] : Str))
         then [] else str "&=") :=
  forward_uri_empty_request_query (str "http://h/base?x=1") (str "http://h/base")
    (str "x=1") reqC5 (by decide) (by decide) (by decide) (Or.inl rfl)

/-!  ## Orchestrator lemmas -/

/-- Whether a `call` outcome spawned the background relay. -/
def relayStarted {B : Type} : CallOutcome B → Bool
  | .upgraded _ => true
  | _ => false

/-- Whether a `call` outcome is `Err(ProxyError::UpgradeError(_))`. -/
def isUpgradeError {B : Type} : CallOutcome B → Bool
  | .error (.UpgradeError _) => true
  | _ => false

lemma forward_uri_congr {B C : Type} (fu : Str) (r1 : Request B) (r2 : Request C)
    (h : r1.uri = r2.uri) : forward_uri fu r1 = forward_uri fu r2 := by
  unfold forward_uri forward_uri_from_parts
  rw [h]

lemma create_proxied_request_eq_ok {B : Type} (parseUri : Str → Option Uri)
    (client_ip forward_url : Str) (request : Request B) (upgrade_type : Option Str)
    (uri : Uri) (h : parseUri (forward_uri forward_url request) = some uri) :
    create_proxied_request parseUri client_ip forward_url request upgrade_type =
      .ok { request with
            uri := uri,
            headers := proxied_headers request.headers upgrade_type client_ip } := by
  unfold create_proxied_request
  rw [h]

/-- Claim C10: when outbound-request construction succeeds,
    `create_proxied_request` changes only the URI and the header set — the
    method and the body come back unchanged. -/
theorem create_proxied_request_frame {B : Type} (parseUri : Str → Option Uri)
    (client_ip forward_url : Str) (request : Request B) (upgrade_type : Option Str)
    (pr : Request B)
    (h : create_proxied_request parseUri client_ip forward_url request upgrade_type =
      .ok pr) :
    pr.method = request.method ∧ pr.body = request.body := by
  unfold create_proxied_request at h
  cases hp : parseUri (forward_uri forward_url request) with
  | none =>
    rw [hp] at h
    cases h
  | some uri =>
    rw [hp] at h
    cases h
    exact ⟨rfl, rfl⟩

/-- Concrete request for C10's witness. -/
def reqW : Request Nat :=
  { method := str "GET", uri := { path := str "/p", query := none },
    headers := [], hasUpgrade := false, body := 7 }

/-- The proxied request that `create_proxied_request` produces from
    `reqW`, used by C10's witness. -/
def prW : Request Nat :=
  { method := str "GET", uri := { path := str "http://h/p", query := none },
    headers := [(str "x-forwarded-for", str "5.6.7.8")],
    hasUpgrade := false, body := 7 }

/-- Witness for C10 at a concrete input. -/
theorem create_proxied_request_frame_witness :
    prW.method = reqW.method ∧ prW.body = reqW.body :=
  create_proxied_request_frame (fun s => some { path := s, query := none })
    (str "5.6.7.8") (str "http://h") reqW none prW (by rfl)

/-- Claim C7: on a 101 origin response, `call` fails with
    `ProxyError::UpgradeError` — not success, not any other error kind —
    whenever the inbound request carried no upgrade handle or the two
    detected upgrade types differ (in the mismatch case the error names
    both values); in both failure cases the relay is never started. -/
theorem call_upgrade_negotiation_failure {B : Type} (parseUri : Str → Option Uri)
    (client_ip forward_url : Str) (request : Request B) (response : Response B)
    (uri : Uri)
    (hparse : parseUri (forward_uri forward_url request) = some uri)
    (h101 : response.status = 101)
    (hfail : request.hasUpgrade = false ∨
      get_upgrade_type request.headers ≠ get_upgrade_type response.headers) :
    isUpgradeError
        (call parseUri client_ip forward_url request (fun _ => .ok response)) = true ∧
    relayStarted
        (call parseUri client_ip forward_url request (fun _ => .ok response)) = false ∧
    (get_upgrade_type request.headers ≠ get_upgrade_type response.headers →
      call parseUri client_ip forward_url request (fun _ => .ok response) =
        .error (.UpgradeError
          (mismatch_message (get_upgrade_type response.headers)
            (get_upgrade_type request.headers)))) := by
  have hparse2 : parseUri
      (forward_uri forward_url ({ request with hasUpgrade := false } : Request B)) =
      some uri := by
    rw [forward_uri_congr forward_url ({ request with hasUpgrade := false } : Request B)
      request rfl]
    exact hparse
  have hcr := create_proxied_request_eq_ok parseUri client_ip forward_url
    ({ request with hasUpgrade := false } : Request B)
    (get_upgrade_type request.headers) uri hparse2
  have hcall : call parseUri client_ip forward_url request (fun _ => .ok response) =
      (if get_upgrade_type request.headers = get_upgrade_type response.headers then
        (if request.hasUpgrade then
          (if response.hasUpgrade then
            CallOutcome.upgraded { response with hasUpgrade := false }
          else CallOutcome.crashed (str "response does not have an upgrade extension"))
        else
          CallOutcome.error
            (.UpgradeError (str "request does not have an upgrade extension")))
      else
        CallOutcome.error
          (.UpgradeError (mismatch_message (get_upgrade_type response.headers)
            (get_upgrade_type request.headers)))) := by
    simp only [call]
    rw [hcr, h101]
    rfl
  by_cases hty : get_upgrade_type request.headers = get_upgrade_type response.headers
  · have hreq : request.hasUpgrade = false := by
      rcases hfail with h | h
      · exact h
      · exact absurd hty h
    rw [hcall, if_pos hty, if_neg (by simp [hreq])]
    exact ⟨rfl, rfl, fun hne => absurd hty hne⟩
  · rw [hcall, if_neg hty]
    exact ⟨rfl, rfl, fun _ => rfl⟩

/-- Concrete request for C7's witness: no upgrade handle attached. -/
def reqU : Request Unit :=
  { method := [], uri := { path := str "/", query := none },
    headers := [], hasUpgrade := false, body := () }

/-- Concrete 101 response for C7's witness. -/
def respU : Response Unit :=
  { status := 101, headers := [], hasUpgrade := false, body := () }

/-- Witness for C7 at a concrete input: a 101 response to a request that
    carried no upgrade handle yields an upgrade error and no relay. -/
theorem call_upgrade_negotiation_failure_witness :
    isUpgradeError
        (call (fun s => some { path := s, query := none }) (str "5.6.7.8")
          (str "http://h") reqU (fun _ => .ok respU)) = true ∧
    relayStarted
        (call (fun s => some { path := s, query := none }) (str "5.6.7.8")
          (str "http://h") reqU (fun _ => .ok respU)) = false ∧
    (get_upgrade_type reqU.headers ≠ get_upgrade_type respU.headers →
      call (fun s => some { path := s, query := none }) (str "5.6.7.8")
          (str "http://h") reqU (fun _ => .ok respU) =
        .error (.UpgradeError
          (mismatch_message (get_upgrade_type respU.headers)
            (get_upgrade_type reqU.headers)))) :=
  call_upgrade_negotiation_failure (fun s => some { path := s, query := none })
    (str "5.6.7.8") (str "http://h") reqU respU
    { path := str "http://h/", query := none } (by decide) (by decide) (Or.inl rfl)

/-- Claim C8 (code bug): on a request whose `connection` header value is
    not valid text, `call` does not return a header-decode error.  Its
    first step, `get_upgrade_type(request.headers())` (line 401), reads the
    value with `to_str().unwrap()` (lines 191-192) and panics; the
    `From<ToStrError> for ProxyError` conversion (lines 165-169) that would
    produce `ProxyError::ForwardHeaderError` is never invoked (the same
    unwrap pattern occurs in `remove_connection_headers`, line 217). -/
theorem get_upgrade_type_invalid_text_crashes :
    get_upgrade_type_bytes [(str "connection", none)] = .crashed := by
  decide

end HyperReverseProxy
